import Mathlib

/-!
Verification of the fabrique repository (a Rust derive-macro library that
generates builder/factory APIs for record types, with relation resolution and
a pluggable persistence interface).

The development shallowly embeds, in Lean:
* the per-field attribute parser of `fabrique-derive/src/analysis.rs`
  (`FabriqueFieldAttributes::from_field` / `parse_name_value`);
* relation derivation (`Relation::new`) in both iterations present in the
  sources: the legacy one in `src/analysis.rs` (implicit suffix fallback for
  the referenced key) and the darling-based one in `src/factory/analysis.rs`
  (explicit referenced key required);
* the shape-validation dispatch of `FactoryAnalysis::fields`;
* the runtime semantics of the builder `create` method generated by
  `FactoryCodegen::generate_factory_method_create` in `src/codegen.rs`
  (relation resolution, default construction, persistence call);
* the `Persistable` trait surface of `fabrique-core/src/lib.rs` and the
  `all`-query generation of `src/persistable/codegen.rs`.

Identifiers are modelled as `List Char` (the character sequence of the Rust
identifier or string), record field values as `Nat` (the examples in the
repository use `u32` fields), and the persistence medium as an explicit
state `σ` threaded through an oracle function.
-/

namespace Fabrique

/-- Rust identifiers and strings, modelled as their character sequences. -/
abbrev Ident := List Char

/-- Model of Rust `str::rsplit_once('_')`: split at the last occurrence of
an underscore, returning the parts before and after it; `none` when the
string contains no underscore. -/
def rsplitOnceUnderscore : List Char → Option (List Char × List Char)
  | [] => none
  | c :: rest =>
    match rsplitOnceUnderscore rest with
    | some (p, s) => some (c :: p, s)
    | none => if c = '_' then some ([], rest) else none

/-- Helper for `stripSuffix`: drop `pre` from the front of the first list,
returning the remainder, or `none` when the first list does not start
with `pre`. -/
def dropPrefixL : List Char → List Char → Option (List Char)
  | xs, [] => some xs
  | [], _ :: _ => none
  | x :: xs, y :: ys => if x = y then dropPrefixL xs ys else none

/-- Model of Rust `str::strip_suffix`: `some prefix` when `s` ends with
`suffix` (with `suffix` removed), `none` otherwise. -/
def stripSuffix (s suffix : List Char) : Option (List Char) :=
  (dropPrefixL s.reverse suffix.reverse).map List.reverse

/-- Model of `syn::parse_str::<Ident>` success: the string is a valid Rust
identifier (first character alphabetic or an underscore, the rest
alphanumeric or underscores, and nonempty).  Keyword rejection is not
modelled; no claim depends on it. -/
def isValidIdentStr : List Char → Bool
  | [] => false
  | c :: cs => (c.isAlpha || c = '_') && cs.all (fun d => d.isAlphanum || d = '_')

/-- The error enumeration used by the analysis code
(`fabrique-derive/src/analysis.rs` together with `src/error.rs`); the union
of the variants the embedded functions construct, plus one extra
constructor, `IdentNewInvalid`, that is NOT a variant of the source's error
enum: it models the panic raised by `proc_macro2::Ident::new` when handed a
string that is not a valid identifier (empty, or starting with a digit) —
in the source this unwinds and aborts the derive instead of returning an
`Err` value, which within the analysis propagates exactly like a
short-circuiting error and is kept distinguishable here by its own
constructor. -/
inductive Error where
  | UnparsableAttribute : String → Error
  | UnparsableLiteral : String → Error
  | UnparsableType : String → Error
  | UnknownAttribute : String → Error
  | MissingReferencedKey : Ident → Error
  | UnsupportedDataStructureEnum : Error
  | UnsupportedDataStructureTupleStruct : Error
  | UnsupportedDataStructureUnion : Error
  | UnsupportedDataStructureUnitStruct : Error
  | IdentNewInvalid : String → Error
deriving DecidableEq, Repr

namespace Analysis

/-- The value part of one `key = value` annotation, as matched by
`FabriqueFieldAttributes::parse_name_value`: a boolean literal, a string
literal, a single-segment path (bare identifier), or any other expression
(carried with its token-stream rendering, used in error payloads). -/
inductive AttrValue where
  | boolLit : Bool → AttrValue
  | strLit : String → AttrValue
  | pathIdent : Ident → AttrValue
  | otherExpr : String → AttrValue
deriving DecidableEq, Repr

/-- Token-stream rendering of an attribute value, as produced by
`to_token_stream().to_string()` in the error paths. -/
def AttrValue.render : AttrValue → String
  | .boolLit true => "true"
  | .boolLit false => "false"
  | .strLit s => "\x22" ++ s ++ "\x22"
  | .pathIdent i => ⟨i⟩
  | .otherExpr s => s

/-- One argument inside a `#[fabrique(...)]` list: `key = value`, a bare
`key` (coerced to `key = true` by `from_field`), or any other expression
(rejected as unparsable). -/
inductive ListArg where
  | assign : String → AttrValue → ListArg
  | bare : String → ListArg
  | otherArg : ListArg
deriving DecidableEq, Repr

/-- The `Meta` shape of one attribute: `#[path = value]`, `#[path(args)]`
(with `malformedList` standing for argument tokens that fail to parse as a
comma-separated expression list), or a bare `#[path]`. -/
inductive AnnMeta where
  | nameValue : String → AttrValue → AnnMeta
  | list : List ListArg → AnnMeta
  | malformedList : AnnMeta
  | pathMeta : AnnMeta
deriving DecidableEq, Repr

/-- One attribute attached to a field: its path (e.g. `fabrique`, `foo`)
and its meta shape.  `render` stands for the attribute's token-stream
rendering used in `UnparsableAttribute` payloads. -/
structure Annotation where
  path : String
  meta : AnnMeta
  render : String
deriving DecidableEq, Repr

/-- A named-struct field as the analysis consumes it: its identifier
(`none` for unnamed fields) and its attached attributes. -/
structure Field where
  ident : Option Ident
  attrs : List Annotation
deriving DecidableEq, Repr

/-- `FabriqueFieldAttributes` of `src/analysis.rs`: primary-key flag,
optional relation target type, optional referenced-key name. -/
structure FabriqueFieldAttributes where
  primary_key : Bool := false
  relation : Option Ident := none
  referenced_key : Option Ident := none
deriving DecidableEq, Repr

/-- `FabriqueFieldAttributes::parse_name_value` of `src/analysis.rs`
(lines 100-168): dispatch on the annotation key, updating the accumulated
attributes or failing.  Keys `primary_key`, `relation` and `referenced_key`
are recognized; every other key is `UnknownAttribute`.  The
`referenced_key` string-literal branch calls
`Ident::new(&str.value(), str.span())`, which panics on a string that is
not a valid identifier (the repository's ui compile-fail test uses
`referenced_key = ""`); that abort is modelled by `IdentNewInvalid`. -/
def parse_name_value (st : FabriqueFieldAttributes) (key : String)
    (value : AttrValue) : Except Error FabriqueFieldAttributes :=
  if key = "primary_key" then
    match value with
    | .boolLit true => .ok { st with primary_key := true }
    | .strLit s =>
      if s = "true" then .ok { st with primary_key := true }
      else if s = "false" then .ok { st with primary_key := false }
      else .error (.UnparsableLiteral s)
    | v => .error (.UnparsableLiteral v.render)
  else if key = "relation" then
    match value with
    | .strLit s =>
      if isValidIdentStr s.toList then .ok { st with relation := some s.toList }
      else .error (.UnparsableType s)
    | .pathIdent i => .ok { st with relation := some i }
    | v => .error (.UnparsableType v.render)
  else if key = "referenced_key" then
    match value with
    | .strLit s =>
      if isValidIdentStr s.toList then .ok { st with referenced_key := some s.toList }
      else .error (.IdentNewInvalid s)
    | .pathIdent i => .ok { st with referenced_key := some i }
    | v => .error (.UnparsableType v.render)
  else
    .error (.UnknownAttribute key)

/-- Processing of the arguments of one `#[fabrique(...)]` attribute by
`from_field`: assignments and bare flags feed `parse_name_value`; any other
argument shape aborts with `UnparsableAttribute`. -/
def parseListArgs (render : String) (st : FabriqueFieldAttributes) :
    List ListArg → Except Error FabriqueFieldAttributes
  | [] => .ok st
  | .assign key value :: rest => do
    let st' ← parse_name_value st key value
    parseListArgs render st' rest
  | .bare key :: rest => do
    let st' ← parse_name_value st key (.boolLit true)
    parseListArgs render st' rest
  | .otherArg :: _ => .error (.UnparsableAttribute render)

/-- Processing of one attribute's meta by `from_field`. -/
def parseMeta (st : FabriqueFieldAttributes) (a : Annotation) :
    Except Error FabriqueFieldAttributes :=
  match a.meta with
  | .nameValue key value => parse_name_value st key value
  | .list args => parseListArgs a.render st args
  | .malformedList => .error (.UnparsableAttribute a.render)
  | .pathMeta => .error (.UnparsableAttribute a.render)

/-- `FabriqueFieldAttributes::from_field` of `src/analysis.rs` (lines
24-98): fold the attribute parser over the field's attributes whose path is
`fabrique`, starting from the default attributes. -/
def from_field (field : Field) : Except Error FabriqueFieldAttributes :=
  (field.attrs.filter (fun a => a.path = "fabrique")).foldlM parseMeta {}

/-- `Relation` of `src/analysis.rs`: factory field identifier, referenced
type, referenced key and base name, all derived from one relation-bearing
field. -/
structure Relation where
  factory_field : Ident
  referenced_type : Ident
  referenced_key : Ident
  name : Ident
deriving DecidableEq, Repr

/-- The implicit-suffix expression of `Relation::new` in `src/analysis.rs`
(lines 284-289): `field_name.rsplit_once("_").map(|(_, suffix)|
Ident::new(suffix, field.span()))`.  `Ident::new` panics when the suffix is
not a valid identifier — reachable with legal field names such as `foo_`
(empty suffix) or `address_1` (digit-leading suffix) — modelled by the
`IdentNewInvalid` outcome. -/
def implicitKey (field_name : Ident) : Except Error (Option Ident) :=
  match rsplitOnceUnderscore field_name with
  | none => .ok none
  | some (_, suffix) =>
    if isValidIdentStr suffix then .ok (some suffix)
    else .error (.IdentNewInvalid ⟨suffix⟩)

/-- `Relation::new` of `src/analysis.rs` (lines 264-305): no relation
attribute yields no relation; otherwise the implicit-suffix expression is
evaluated first — it is the eagerly evaluated argument of `Option::or`, so
its `Ident::new` panic fires even when an explicit `referenced_key` is
present — and then the referenced key is the explicit `referenced_key`
attribute when present, else the implicit suffix, else the analysis fails
with `MissingReferencedKey`.  The base name strips the `_<referenced_key>`
suffix from the field name when present, and the factory field appends
`_factory` to the base name (that second `Ident::new` cannot panic: the
base name is a — possibly empty — prefix of the valid field identifier, so
`<base>_factory` is always a valid identifier, and it is modelled as
total). -/
def Relation.new (field : Field) (attributes : FabriqueFieldAttributes) :
    Except Error (Option Relation) :=
  match attributes.relation with
  | none => .ok none
  | some referenced_type =>
    match field.ident with
    | none => .error .UnsupportedDataStructureTupleStruct
    | some field_name =>
      match implicitKey field_name with
      | .error e => .error e
      | .ok implicit =>
        match attributes.referenced_key.or implicit with
        | none => .error (.MissingReferencedKey field_name)
        | some referenced_key =>
          let name := (stripSuffix field_name ('_' :: referenced_key)).getD field_name
          .ok (some { factory_field := name ++ "_factory".toList
                      referenced_type
                      referenced_key
                      name })

/-- `FactoryFieldAnalysisOutput` of `src/analysis.rs`: the field together
with its primary-key flag and derived optional relation. -/
structure FactoryFieldAnalysisOutput where
  field : Field
  primary_key : Bool
  relation : Option Relation
deriving DecidableEq, Repr

end Analysis

/-- The `Data` shape of a derive input as matched by
`FactoryAnalysis::fields` in both `src/analysis.rs` (lines 190-220) and
`src/factory/analysis.rs` (lines 45-61): a struct with named fields, a unit
struct, a tuple struct (carrying its unnamed fields' attributes), an enum
(carrying its variants' fields) or a union (carrying its named fields). -/
inductive Data where
  | structNamed : List Analysis.Field → Data
  | structUnit : Data
  | structUnnamed : List Analysis.Field → Data
  | dataEnum : List (List Analysis.Field) → Data
  | dataUnion : List Analysis.Field → Data
deriving DecidableEq, Repr

/-- The shape dispatch shared by both `FactoryAnalysis::fields` variants:
named fields pass through; every other shape is the matching
`UnsupportedDataStructure` error.  The per-field analysis is a parameter
(`perField`); it runs only on the named-struct branch. -/
def fieldsDispatch {α : Type} (perField : Analysis.Field → Except Error α) :
    Data → Except Error (List α)
  | .structNamed named => named.mapM perField
  | .structUnit => .error .UnsupportedDataStructureUnitStruct
  | .structUnnamed _ => .error .UnsupportedDataStructureTupleStruct
  | .dataEnum _ => .error .UnsupportedDataStructureEnum
  | .dataUnion _ => .error .UnsupportedDataStructureUnion

namespace Analysis

/-- The per-field step of `FactoryAnalysis::fields` in `src/analysis.rs`
(lines 208-219): parse the field's attributes, then derive its optional
relation. -/
def analyzeField (field : Field) : Except Error FactoryFieldAnalysisOutput := do
  let attributes ← from_field field
  let relation ← Relation.new field attributes
  .ok { field, primary_key := attributes.primary_key, relation }

/-- `FactoryAnalysis::fields` of `src/analysis.rs` (lines 190-220). -/
def fields (d : Data) : Except Error (List FactoryFieldAnalysisOutput) :=
  fieldsDispatch analyzeField d

end Analysis

namespace Factory.Analysis

open Fabrique.Analysis (Field Relation FabriqueFieldAttributes)

/-- `Relation::new` of `src/factory/analysis.rs` (lines 119-157): same as
the legacy variant except that the referenced key must be the explicit
`referenced_key` attribute; there is no field-name-suffix fallback. -/
def Relation.new (field : Field) (attributes : FabriqueFieldAttributes) :
    Except Error (Option Relation) :=
  match attributes.relation with
  | none => .ok none
  | some referenced_type =>
    match field.ident with
    | none => .error .UnsupportedDataStructureTupleStruct
    | some field_name =>
      match attributes.referenced_key with
      | none => .error (.MissingReferencedKey field_name)
      | some referenced_key =>
        let name := (stripSuffix field_name ('_' :: referenced_key)).getD field_name
        .ok (some { factory_field := name ++ "_factory".toList
                    referenced_type
                    referenced_key
                    name })

/-- `FactoryAnalysis::fields` of `src/factory/analysis.rs` (lines 45-75):
the same shape dispatch, with the per-field attribute parsing delegated to
the external darling crate (here a parameter `fromFieldDarling`). -/
def fields {α : Type} (fromFieldDarling : Field → Except Error α) (d : Data) :
    Except Error (List α) :=
  fieldsDispatch fromFieldDarling d

end Factory.Analysis

namespace Codegen

/-- A record field's static description for the generated factory: its name
and the `Default::default()` value of its type (field values are modelled
as `Nat`, matching the `u32` fields of the repository's examples). -/
structure SField where
  name : Ident
  dflt : Nat
deriving DecidableEq, Repr

mutual
/-- The static schema a generated factory works over: the record type's
name, its fields (with defaults) in declaration order, and its relations in
declaration order.  A relation's related type is resolved to that type's
own schema. -/
inductive Schema where
  | mk : Ident → List SField → RelList → Schema

/-- The relation list of a schema.  Each entry carries the owner field name
(the field the extracted value is stored into), the relation's base name
(addressing the `for_<base>` hook and the `<base>_factory` slot), the
referenced key recorded by analysis, and the related type's schema. -/
inductive RelList where
  | nil : RelList
  | cons : Ident → Ident → Ident → Schema → RelList → RelList
end

/-- The record type's name. -/
def Schema.name : Schema → Ident
  | .mk n _ _ => n

/-- The record type's field list. -/
def Schema.sfields : Schema → List SField
  | .mk _ fs _ => fs

/-- The record type's relation list. -/
def Schema.rels : Schema → RelList
  | .mk _ _ rs => rs

/-- A persisted or constructed record instance: its field values by name,
in declaration order. -/
abbrev Instance := List (Ident × Nat)

/-- One builder-API call, deep-embedding the callbacks passed to the
generated `for_<relation>` hooks: the generated setters
(`fn <field>(self, value)`) and relation hooks (`fn for_<base>(self, cb)`)
are the only operations a factory value exposes. -/
inductive FactoryOp where
  | setField : Ident → Nat → FactoryOp
  | forRelation : Ident → List FactoryOp → FactoryOp

/-- The runtime state of a generated factory value: one optional slot per
field and one optional pending-callback slot per relation (addressed by the
relation's base name), each in declaration order. -/
structure FactoryState where
  fieldSlots : List (Ident × Option Nat)
  relSlots : List (Ident × Option (List FactoryOp))

/-- Base names of a schema's relations, in declaration order. -/
def RelList.baseNames : RelList → List Ident
  | .nil => []
  | .cons _ base _ _ rest => base :: rest.baseNames

/-- The generated `new()` method (`generate_factory_method_new`,
`src/codegen.rs` lines 139-163): every field slot and every relation slot
starts out `None`. -/
def newFactory (s : Schema) : FactoryState :=
  { fieldSlots := s.sfields.map (fun f => (f.name, none))
    relSlots := s.rels.baseNames.map (fun b => (b, none)) }

/-- The generated per-field setter (`generate_factory_method_fields`,
`src/codegen.rs` lines 165-177): store `some value` in that field's slot,
leaving every other slot unchanged. -/
def setFieldSlot (slots : List (Ident × Option Nat)) (f : Ident) (v : Nat) :
    List (Ident × Option Nat) :=
  slots.map (fun p => if p.1 = f then (p.1, some v) else p)

/-- The generated `for_<relation>` hook
(`generate_factory_methods_for_relation`, `src/codegen.rs` lines 183-197):
store the callback in that relation's pending slot, overwriting any
previous one. -/
def setRelSlot (slots : List (Ident × Option (List FactoryOp)))
    (base : Ident) (prog : List FactoryOp) :
    List (Ident × Option (List FactoryOp)) :=
  slots.map (fun p => if p.1 = base then (p.1, some prog) else p)

/-- Apply one builder-API call to a factory state. -/
def applyOp (st : FactoryState) : FactoryOp → FactoryState
  | .setField f v => { st with fieldSlots := setFieldSlot st.fieldSlots f v }
  | .forRelation base prog => { st with relSlots := setRelSlot st.relSlots base prog }

/-- Apply a callback (a chain of builder-API calls) to a factory state. -/
def applyOps (st : FactoryState) : List FactoryOp → FactoryState
  | [] => st
  | op :: rest => applyOps (applyOp st op) rest

/-- Look up an association-list entry by name. -/
def lookupSlot {β : Type} (k : Ident) : List (Ident × β) → Option β
  | [] => none
  | (n, v) :: rest => if n = k then some v else lookupSlot k rest

/-- Rust struct field access `instance.f` on a modelled instance.  The
generated code only accesses fields the related struct declares, so the
`getD 0` default never fires on well-formed inputs. -/
def getField (inst : Instance) (f : Ident) : Nat :=
  (lookupSlot f inst).getD 0

/-- The field name the generated relation-resolution code extracts from a
created related instance: `src/codegen.rs` line 109 emits
`self.#field = Some(instance.id)`, the fixed field `id`. -/
def idIdent : Ident := "id".toList

/-- The construction step of the generated `create`
(`src/codegen.rs` lines 116-132): for every field, the slot's value if set,
else the field type's default value. -/
def buildInstance (sfields : List SField) (slots : List (Ident × Option Nat)) :
    Instance :=
  sfields.map (fun f =>
    (f.name, match lookupSlot f.name slots with
             | some (some v) => v
             | _ => f.dflt))

/-- A persistence oracle: the external `Persistable::create`
implementations, indexed by record type name, acting on an explicit store
state `σ` (the medium behind the shared `connection`) and either returning
the stored instance or an opaque error `ε`. -/
abbrev PersistFn (σ ε : Type) := Ident → Instance → σ → σ × Except ε Instance

mutual
/-- The generated `create` method
(`FactoryCodegen::generate_factory_method_create`, `src/codegen.rs` lines
98-137): first resolve the relations in order, then construct the instance
from the field slots with per-type defaults, then hand it to the
`Persistable::create` of the record type, returning that result
unchanged. -/
def create {σ ε : Type} (persist : PersistFn σ ε) :
    Schema → FactoryState → σ → σ × Except ε Instance
  | .mk name sfields rels, st, conn =>
    match resolveRels persist rels st.relSlots st.fieldSlots conn with
    | (conn', .error e) => (conn', .error e)
    | (conn', .ok slots) => persist name (buildInstance sfields slots) conn'

/-- The relation-resolution loop of the generated `create`
(`src/codegen.rs` lines 101-112): for each relation in declaration order,
if a callback is pending, apply it to the related type's default factory,
recursively `create` the result against the same connection, and on
success overwrite the owner field's slot with the created instance's `id`
field; on failure return the error at once. -/
def resolveRels {σ ε : Type} (persist : PersistFn σ ε) :
    RelList → List (Ident × Option (List FactoryOp)) →
    List (Ident × Option Nat) → σ →
    σ × Except ε (List (Ident × Option Nat))
  | .nil, _, slots, conn => (conn, .ok slots)
  | .cons _ _ _ _ _, [], slots, conn => (conn, .ok slots)
  | .cons owner _ _ related rest, cb :: cbs, slots, conn =>
    match cb.2 with
    | none => resolveRels persist rest cbs slots conn
    | some prog =>
      match create persist related (applyOps (newFactory related) prog) conn with
      | (conn', .error e) => (conn', .error e)
      | (conn', .ok inst) =>
        resolveRels persist rest cbs
          (setFieldSlot slots owner (getField inst idIdent)) conn'
end

end Codegen

namespace Core

/-- Parameter shapes of a Rust method signature, as needed to compare the
trait declaration with the derive-generated implementation. -/
inductive ParamKind where
  | selfReceiver : ParamKind
  | connectionRef : ParamKind
deriving DecidableEq, Repr

/-- The parameter list of `Persistable::all` as declared in
`fabrique-core/src/lib.rs` lines 47-50:
`fn all(self, connection: &Self::Connection)` — a `self` receiver followed
by the connection reference. -/
def persistableAllParams : List ParamKind := [.selfReceiver, .connectionRef]

/-- The parameter list of `Persistable::create` as declared in
`fabrique-core/src/lib.rs` lines 38-41. -/
def persistableCreateParams : List ParamKind := [.selfReceiver, .connectionRef]

/-- The parameter list of the `all` implementation emitted by
`PersistableCodegen::generate_fn_all` (`src/persistable/codegen.rs` lines
52-56): `async fn all(connection: &Self::Connection)`, no receiver.  The
integration tests call it the same way (`Anvil::all(&())`,
`<Anvil as Persistable>::all(&connection)`). -/
def generatedAllParams : List ParamKind := [.connectionRef]

end Core

namespace Persistable

/-- Models Rust `char::to_lowercase` restricted to the ASCII characters
appearing in record type names. -/
def asciiLower (c : Char) : Char :=
  if 'A' ≤ c ∧ c ≤ 'Z' then Char.ofNat (c.toNat + 32) else c

/-- Modelled from the spec: the persistable analysis's storage-identity
computation (`Analysis::table_name`, whose source file is not part of this
tree — only its consumer `src/persistable/codegen.rs` is): the lower-cased,
pluralized record type name, unless an explicit identity-override
annotation is present, in which case the override is used verbatim. -/
def table_name (recordIdent : Ident) (overrideAttr : Option Ident) : Ident :=
  match overrideAttr with
  | some t => t
  | none => recordIdent.map asciiLower ++ "s".toList

/-- Model of `Vec::join(", ")` over the column names. -/
def joinComma : List Ident → Ident
  | [] => []
  | [c] => c
  | c :: rest => c ++ ", ".toList ++ joinComma rest

/-- The SQL text produced by `PersistableCodegen::generate_fn_all`
(`src/persistable/codegen.rs` lines 39-57):
`format!("SELECT {} FROM {}", column_names, table_name)`. -/
def allQuery (columns : List Ident) (table : Ident) : Ident :=
  "SELECT ".toList ++ joinComma columns ++ " FROM ".toList ++ table

end Persistable

namespace Examples

open Codegen

/-- The `Hammer` record of the integration tests: fields `id` and `weight`,
no relations. -/
def hammerS : Schema :=
  .mk "Hammer".toList [⟨"id".toList, 0⟩, ⟨"weight".toList, 0⟩] .nil

/-- The fields of the `Anvil` record of the integration tests. -/
def anvilFields : List SField :=
  [⟨"id".toList, 0⟩, ⟨"hammer_id".toList, 0⟩, ⟨"hardness".toList, 0⟩,
   ⟨"weight".toList, 0⟩]

/-- The `Anvil` record of the integration tests: fields `id`, `hammer_id`,
`hardness`, `weight`, with a relation on `hammer_id` targeting `Hammer`
(referenced key `id`). -/
def anvilS : Schema :=
  .mk "Anvil".toList anvilFields
    (.cons "hammer_id".toList "hammer".toList "id".toList hammerS .nil)

/-- The `Anvil` factory's field slots as initialized by `new()`. -/
def anvilSlots0 : List (Ident × Option Nat) :=
  anvilFields.map (fun f => (f.name, none))

/-- The callback of the integration test: set the hammer's `id` to 100. -/
def prog100 : List FactoryOp := [.setField "id".toList 100]

/-- A persistence oracle whose `create` returns its argument unchanged and
leaves the store untouched, as assumed by the builder round-trip
property. -/
def okPersist : PersistFn Nat Nat := fun _ inst conn => (conn, .ok inst)

/-- A persistence oracle that fails with error `7` exactly on the record
type named `t`, and otherwise stores nothing and echoes the instance. -/
def failOn (t : Ident) : PersistFn Nat Nat :=
  fun n inst conn => if n = t then (conn, .error 7) else (conn, .ok inst)

/-- A related record used to separate the referenced key from the fixed
`id` field: type `Gauge` with fields `id` and `weight`. -/
def gaugeS : Schema :=
  .mk "Gauge".toList [⟨"id".toList, 0⟩, ⟨"weight".toList, 0⟩] .nil

/-- An owner record whose single relation references the `weight` key of
`Gauge` from owner field `gauge_weight`. -/
def scaleS : Schema :=
  .mk "Scale".toList [⟨"gauge_weight".toList, 0⟩]
    (.cons "gauge_weight".toList "gauge".toList "weight".toList gaugeS .nil)

/-- The callback used against `Gauge`: set `weight` to `7` and `id` to
`3`. -/
def gaugeProg : List FactoryOp :=
  [.setField "weight".toList 7, .setField "id".toList 3]

end Examples

/-! Characterization lemmas for the string helpers. -/

theorem rsplitOnceUnderscore_eq_none_iff (l : List Char) :
    rsplitOnceUnderscore l = none ↔ '_' ∉ l := by
  induction l with
  | nil => simp [rsplitOnceUnderscore]
  | cons c rest ih =>
    simp only [rsplitOnceUnderscore]
    cases h : rsplitOnceUnderscore rest with
    | some p =>
      have hmem : '_' ∈ rest := by
        by_contra hm
        rw [ih.mpr hm] at h
        exact Option.noConfusion h
      simp [List.mem_cons, hmem]
    | none =>
      have hrest : '_' ∉ rest := ih.mp h
      by_cases hc : c = '_'
      · subst hc; simp
      · rw [if_neg hc]
        have hnm : '_' ∉ c :: rest := by
          simp only [List.mem_cons, not_or]
          exact ⟨fun h' => hc h'.symm, hrest⟩
        exact iff_of_true rfl hnm

theorem rsplitOnceUnderscore_eq_some (l : List Char) :
    ∀ p s, rsplitOnceUnderscore l = some (p, s) → l = p ++ '_' :: s ∧ '_' ∉ s := by
  induction l with
  | nil => intro p s h; exact Option.noConfusion h
  | cons c rest ih =>
    intro p s h
    simp only [rsplitOnceUnderscore] at h
    cases hr : rsplitOnceUnderscore rest with
    | some q =>
      obtain ⟨q1, q2⟩ := q
      rw [hr] at h
      have hpair : (c :: q1, q2) = (p, s) := Option.some.inj h
      have hp : c :: q1 = p := congrArg Prod.fst hpair
      have hs : q2 = s := congrArg Prod.snd hpair
      obtain ⟨h1, h2⟩ := ih q1 q2 hr
      subst hp hs
      exact ⟨by rw [h1]; rfl, h2⟩
    | none =>
      rw [hr] at h
      by_cases hc : c = '_'
      · rw [if_pos hc] at h
        have hpair : (([] : List Char), rest) = (p, s) := Option.some.inj h
        have hp : ([] : List Char) = p := congrArg Prod.fst hpair
        have hs : rest = s := congrArg Prod.snd hpair
        subst hp hs
        exact ⟨by rw [hc]; rfl, (rsplitOnceUnderscore_eq_none_iff rest).mp hr⟩
      · rw [if_neg hc] at h
        exact Option.noConfusion h

theorem rsplitOnceUnderscore_of_mem {l : List Char} (h : '_' ∈ l) :
    ∃ p s, rsplitOnceUnderscore l = some (p, s) := by
  cases hr : rsplitOnceUnderscore l with
  | none => exact absurd h (by simpa using (rsplitOnceUnderscore_eq_none_iff l).mp hr)
  | some ps =>
    obtain ⟨p, s⟩ := ps
    exact ⟨p, s, rfl⟩

theorem dropPrefixL_append (a b : List Char) : dropPrefixL (a ++ b) a = some b := by
  induction a with
  | nil => cases b <;> rfl
  | cons x xs ih => simp [dropPrefixL, ih]

theorem dropPrefixL_eq_some (xs : List Char) :
    ∀ pre r, dropPrefixL xs pre = some r → xs = pre ++ r := by
  induction xs with
  | nil =>
    intro pre r h
    cases pre with
    | nil =>
      have := Option.some.inj h
      rw [← this]
      rfl
    | cons y ys => exact Option.noConfusion h
  | cons x xs ih =>
    intro pre r h
    cases pre with
    | nil =>
      have := Option.some.inj h
      rw [← this]
      rfl
    | cons y ys =>
      simp only [dropPrefixL] at h
      by_cases hxy : x = y
      · rw [if_pos hxy] at h
        have := ih ys r h
        simp [hxy, this]
      · rw [if_neg hxy] at h
        exact Option.noConfusion h

theorem stripSuffix_eq_some_iff (s suf p : List Char) :
    stripSuffix s suf = some p ↔ s = p ++ suf := by
  constructor
  · intro h
    simp only [stripSuffix, Option.map_eq_some'] at h
    obtain ⟨r, hr, hp⟩ := h
    have h1 := dropPrefixL_eq_some s.reverse suf.reverse r hr
    have h2 := congrArg List.reverse h1
    simpa [← hp] using h2
  · intro h
    subst h
    simp [stripSuffix, dropPrefixL_append]

theorem stripSuffix_eq_none {s suf : List Char}
    (h : ¬∃ p, s = p ++ suf) : stripSuffix s suf = none := by
  cases hs : stripSuffix s suf with
  | none => rfl
  | some p => exact absurd ⟨p, (stripSuffix_eq_some_iff s suf p).mp hs⟩ h

namespace Codegen

/-- Reading back an overwritten field slot: the generated setter and the
relation-resolution assignment store `some v` into the named slot, replacing
whatever value the slot held. -/
theorem lookupSlot_setFieldSlot_self (slots : List (Ident × Option Nat))
    (f : Ident) (v : Nat) (w : Option Nat) (h : lookupSlot f slots = some w) :
    lookupSlot f (setFieldSlot slots f v) = some (some v) := by
  induction slots with
  | nil => exact Option.noConfusion h
  | cons p rest ih =>
    have hsplit : setFieldSlot (p :: rest) f v
        = (if p.1 = f then (p.1, some v) else p) :: setFieldSlot rest f v := rfl
    by_cases hp : p.1 = f
    · rw [hsplit, if_pos hp]
      simp [lookupSlot, hp]
    · rw [hsplit, if_neg hp]
      simp only [lookupSlot, if_neg hp] at h ⊢
      exact ih h

/-- The relation-resolution loop skips every relation whose
pending-customization slot is empty. -/
theorem resolveRels_all_none {σ ε : Type} (persist : PersistFn σ ε) :
    ∀ (rels : RelList) (cbs : List (Ident × Option (List FactoryOp)))
      (slots : List (Ident × Option Nat)) (conn : σ),
      (∀ c ∈ cbs, c.2 = none) →
      resolveRels persist rels cbs slots conn = (conn, .ok slots)
  | .nil, _, slots, conn, _ => rfl
  | .cons _ _ _ _ _, [], slots, conn, _ => rfl
  | .cons owner base key related rest, cb :: cbs, slots, conn, h => by
    have hcb : cb.2 = none := h cb (List.mem_cons_self cb cbs)
    have hrest : ∀ c ∈ cbs, c.2 = none := fun c hc => h c (List.mem_cons_of_mem cb hc)
    simp only [resolveRels, hcb]
    exact resolveRels_all_none persist rest cbs slots conn hrest

/-- Looking up a name in the all-empty slot list built by `newFactory`
never produces a set value. -/
theorem lookupSlot_map_none (fs : List SField) (x : Ident) :
    ∀ o, lookupSlot x (fs.map (fun f => (f.name, (none : Option Nat)))) = some o →
      o = none := by
  induction fs with
  | nil => intro o h; exact Option.noConfusion h
  | cons f rest ih =>
    intro o h
    simp only [List.map_cons, lookupSlot] at h
    by_cases hf : f.name = x
    · rw [if_pos hf] at h
      exact (Option.some.inj h).symm
    · rw [if_neg hf] at h
      exact ih o h

/-- Constructing from all-empty slots yields the all-defaults instance. -/
theorem buildInstance_all_none (fs : List SField) :
    buildInstance fs (fs.map (fun f => (f.name, none))) =
      fs.map (fun f => (f.name, f.dflt)) := by
  unfold buildInstance
  apply List.map_congr_left
  intro f _
  cases h : lookupSlot f.name (fs.map (fun g => (g.name, (none : Option Nat)))) with
  | none => rfl
  | some o =>
    have := lookupSlot_map_none fs f.name o h
    subst this
    rfl

end Codegen

/-- C6: for every input shape that is not a flat named-field record —
enums, tuple structs, unit structs and unions — both analysis variants fail
with the matching unsupported-shape error, and no field's attributes are
ever parsed: the result is independent of the shape's field payload, and in
the factory variant independent even of the per-field parser. -/
theorem analysis_rejects_unsupported_shapes :
    (∀ (fs : List Analysis.Field) (vs : List (List Analysis.Field)),
      Analysis.fields .structUnit = .error .UnsupportedDataStructureUnitStruct
      ∧ Analysis.fields (.structUnnamed fs)
          = .error .UnsupportedDataStructureTupleStruct
      ∧ Analysis.fields (.dataEnum vs) = .error .UnsupportedDataStructureEnum
      ∧ Analysis.fields (.dataUnion fs) = .error .UnsupportedDataStructureUnion)
    ∧ (∀ (α : Type) (pf : Analysis.Field → Except Error α)
        (fs : List Analysis.Field) (vs : List (List Analysis.Field)),
      Factory.Analysis.fields pf .structUnit
          = .error .UnsupportedDataStructureUnitStruct
      ∧ Factory.Analysis.fields pf (.structUnnamed fs)
          = .error .UnsupportedDataStructureTupleStruct
      ∧ Factory.Analysis.fields pf (.dataEnum vs)
          = .error .UnsupportedDataStructureEnum
      ∧ Factory.Analysis.fields pf (.dataUnion fs)
          = .error .UnsupportedDataStructureUnion) :=
  ⟨fun _ _ => ⟨rfl, rfl, rfl, rfl⟩, fun _ _ _ _ => ⟨rfl, rfl, rfl, rfl⟩⟩

/-- C8 (code bug): `Persistable::all` as declared in fabrique-core takes a
`self` receiver in addition to the connection reference, while the
derive-generated implementation — which must satisfy that very trait — and
the integration tests use the connection-only signature the claim
describes. -/
theorem persistable_all_signature :
    Core.persistableAllParams = [.selfReceiver, .connectionRef]
    ∧ Core.generatedAllParams = [.connectionRef]
    ∧ Core.persistableAllParams ≠ Core.generatedAllParams :=
  ⟨rfl, rfl, by decide⟩

/-- C9: the derived storage identity for a record type named `Anvil` with
no override is `anvils`; with an explicit override `custom_anvils` it is
that override; and the generated `all` query for a single column `id` over
the default identity is `SELECT id FROM anvils`, matching the generated
code's own test. -/
theorem storage_identity_naming :
    Persistable.table_name "Anvil".toList none = "anvils".toList
    ∧ Persistable.table_name "Anvil".toList (some "custom_anvils".toList)
        = "custom_anvils".toList
    ∧ Persistable.allQuery ["id".toList] (Persistable.table_name "Anvil".toList none)
        = "SELECT id FROM anvils".toList := by
  refine ⟨by decide, rfl, by decide⟩

/-- C10: a field none of whose attached attributes has the path `fabrique`
parses to the default attributes — primary-key false, no relation, no
referenced key — and derives no relation: foreign annotations are silently
ignored. -/
theorem foreign_annotations_ignored :
    ∀ (name : Option Ident) (ats : List Analysis.Annotation),
      (∀ a ∈ ats, a.path ≠ "fabrique") →
      Analysis.from_field ⟨name, ats⟩ = .ok ⟨false, none, none⟩
      ∧ Analysis.Relation.new ⟨name, ats⟩ ⟨false, none, none⟩ = .ok none := by
  intro name ats h
  refine ⟨?_, rfl⟩
  unfold Analysis.from_field
  have hfil : (Analysis.Field.mk name ats).attrs.filter
      (fun a => a.path = "fabrique") = [] := by
    rw [List.filter_eq_nil_iff]
    intro a ha
    simpa using h a ha
  rw [hfil]
  rfl

/-- Witness for C10 at the repository's own test input: a field `density`
carrying only the foreign attribute `#[foo]`. -/
theorem foreign_annotations_ignored_witness :
    Analysis.from_field ⟨some "density".toList, [⟨"foo", .pathMeta, "#[foo]"⟩]⟩
        = .ok ⟨false, none, none⟩
    ∧ Analysis.Relation.new ⟨some "density".toList, [⟨"foo", .pathMeta, "#[foo]"⟩]⟩
        ⟨false, none, none⟩ = .ok none :=
  foreign_annotations_ignored (some "density".toList)
    [⟨"foo", .pathMeta, "#[foo]"⟩] (by decide)

/-- C5 counterexample: the annotation key `extract` is not in the parser's
recognized set — a field annotated with a fabrique `extract = "id"` item
fails with `UnknownAttribute "extract"` instead of being treated as an
alias of `referenced_key`. -/
theorem extract_key_rejected_as_unknown :
    Analysis.from_field ⟨some "hammer".toList,
        [⟨"fabrique", .list [.assign "extract" (.strLit "id")],
          "#[fabrique(extract = \x22id\x22)]"⟩]⟩
      = .error (.UnknownAttribute "extract") := rfl

/-- C5 (amended): the attribute parser recognizes exactly the keys
`primary_key`, `relation` and `referenced_key`; every key outside this set
— `extract` included — fails with `UnknownAttribute` naming that key, and a
recognized key never yields an `UnknownAttribute` error. -/
theorem recognized_attribute_keys :
    ∀ (st : Analysis.FabriqueFieldAttributes) (key : String)
      (v : Analysis.AttrValue),
      (key ∉ (["primary_key", "relation", "referenced_key"] : List String) →
        Analysis.parse_name_value st key v = .error (.UnknownAttribute key))
      ∧ (key ∈ (["primary_key", "relation", "referenced_key"] : List String) →
        ∀ e, Analysis.parse_name_value st key v ≠ .error (.UnknownAttribute e)) := by
  intro st key v
  constructor
  · intro hk
    simp only [List.mem_cons, List.not_mem_nil, or_false, not_or] at hk
    obtain ⟨h1, h2, h3⟩ := hk
    unfold Analysis.parse_name_value
    rw [if_neg h1, if_neg h2, if_neg h3]
  · intro hk e
    simp only [List.mem_cons, List.not_mem_nil, or_false] at hk
    unfold Analysis.parse_name_value
    rcases hk with h | h | h
    · subst h
      rw [if_pos rfl]
      cases v with
      | boolLit b => cases b <;> simp
      | strLit s =>
        by_cases h1 : s = "true"
        · simp [h1]
        · by_cases h2 : s = "false" <;> simp [h1, h2]
      | pathIdent i => simp
      | otherExpr s => simp
    · subst h
      rw [if_neg (by decide), if_pos rfl]
      cases v with
      | boolLit b => simp
      | strLit s => by_cases h1 : isValidIdentStr s.data <;> simp [String.toList, h1]
      | pathIdent i => simp
      | otherExpr s => simp
    · subst h
      rw [if_neg (by decide), if_neg (by decide), if_pos rfl]
      cases v with
      | boolLit b => simp
      | strLit s => by_cases h1 : isValidIdentStr s.data <;> simp [String.toList, h1]
      | pathIdent i => simp
      | otherExpr s => simp

/-- Witness for C5 (amended) at the repository's own test input: the key
`unknown` (from a fabrique `unknown = true` item) is rejected by name. -/
theorem recognized_attribute_keys_witness :
    Analysis.parse_name_value ⟨false, none, none⟩ "unknown" (.boolLit true)
      = .error (.UnknownAttribute "unknown") :=
  (recognized_attribute_keys ⟨false, none, none⟩ "unknown" (.boolLit true)).1
    (by decide)

/-- C4 counterexample: in the factory analysis variant, a relation field
named `hammer_id` — whose name contains an underscore — with no explicit
referenced key fails with `MissingReferencedKey` instead of deriving the
suffix `id`, exactly as that variant's own test expects. -/
theorem factory_variant_has_no_suffix_fallback :
    Factory.Analysis.Relation.new ⟨some "hammer_id".toList, []⟩
        ⟨false, some "Hammer".toList, none⟩
      = .error (.MissingReferencedKey "hammer_id".toList)
    ∧ '_' ∈ "hammer_id".toList :=
  ⟨rfl, by decide⟩

/-- C4 (amended): referenced-key derivation.  In the legacy analysis
(`src/analysis.rs`), the implicit-suffix expression is evaluated eagerly:
when the owner field name contains an underscore whose final suffix is not
a valid identifier (a legal field name such as `foo_` or `address_1`), the
derive aborts with the `Ident::new` panic even if an explicit
`referenced_key` is present; otherwise the key is the explicit
`referenced_key` attribute when present, else the suffix after the last
underscore when the name contains one, else analysis fails with
`MissingReferencedKey(field_name)`.  In the factory analysis
(`src/factory/analysis.rs`) the key must be explicit: without the attribute
the analysis fails with `MissingReferencedKey(field_name)` even when the
field name contains an underscore.  (Neither variant has an `extract`
attribute.) -/
theorem referenced_key_policy :
    (∀ (fname rt : Ident) (pk : Bool) (ats : List Analysis.Annotation)
       (rk : Option Ident) (p s : Ident),
      rsplitOnceUnderscore fname = some (p, s) →
      isValidIdentStr s = false →
      Analysis.Relation.new ⟨some fname, ats⟩ ⟨pk, some rt, rk⟩
        = .error (.IdentNewInvalid ⟨s⟩))
    ∧ (∀ (fname rt k : Ident) (pk : Bool) (ats : List Analysis.Annotation),
      (∀ p s, rsplitOnceUnderscore fname = some (p, s) →
        isValidIdentStr s = true) →
      ∃ rel, Analysis.Relation.new ⟨some fname, ats⟩ ⟨pk, some rt, some k⟩
          = .ok (some rel) ∧ rel.referenced_key = k)
    ∧ (∀ (fname rt : Ident) (pk : Bool) (ats : List Analysis.Annotation)
       (p s : Ident),
      rsplitOnceUnderscore fname = some (p, s) →
      isValidIdentStr s = true →
      ∃ rel, Analysis.Relation.new ⟨some fname, ats⟩ ⟨pk, some rt, none⟩
          = .ok (some rel) ∧ fname = p ++ '_' :: s ∧ '_' ∉ s
          ∧ rel.referenced_key = s)
    ∧ (∀ (fname rt : Ident) (pk : Bool) (ats : List Analysis.Annotation),
        '_' ∉ fname →
        Analysis.Relation.new ⟨some fname, ats⟩ ⟨pk, some rt, none⟩
          = .error (.MissingReferencedKey fname))
    ∧ (∀ (fname rt k : Ident) (pk : Bool) (ats : List Analysis.Annotation),
      ∃ rel, Factory.Analysis.Relation.new ⟨some fname, ats⟩ ⟨pk, some rt, some k⟩
          = .ok (some rel) ∧ rel.referenced_key = k)
    ∧ (∀ (fname rt : Ident) (pk : Bool) (ats : List Analysis.Annotation),
        Factory.Analysis.Relation.new ⟨some fname, ats⟩ ⟨pk, some rt, none⟩
          = .error (.MissingReferencedKey fname)) := by
  refine ⟨?_, ?_, ?_, ?_, ?_, ?_⟩
  · intro fname rt pk ats rk p s hr hval
    simp [Analysis.Relation.new, Analysis.implicitKey, hr, hval]
  · intro fname rt k pk ats hv
    cases hr : rsplitOnceUnderscore fname with
    | none =>
      have hnew : Analysis.Relation.new ⟨some fname, ats⟩ ⟨pk, some rt, some k⟩
          = .ok (some ⟨((stripSuffix fname ('_' :: k)).getD fname) ++ "_factory".toList,
                       rt, k, (stripSuffix fname ('_' :: k)).getD fname⟩) := by
        simp [Analysis.Relation.new, Analysis.implicitKey, hr]
      exact ⟨_, hnew, rfl⟩
    | some ps =>
      obtain ⟨p, s⟩ := ps
      have hval := hv p s hr
      have hnew : Analysis.Relation.new ⟨some fname, ats⟩ ⟨pk, some rt, some k⟩
          = .ok (some ⟨((stripSuffix fname ('_' :: k)).getD fname) ++ "_factory".toList,
                       rt, k, (stripSuffix fname ('_' :: k)).getD fname⟩) := by
        simp [Analysis.Relation.new, Analysis.implicitKey, hr, hval]
      exact ⟨_, hnew, rfl⟩
  · intro fname rt pk ats p s hr hval
    obtain ⟨heq, hns⟩ := rsplitOnceUnderscore_eq_some fname p s hr
    have hnew : Analysis.Relation.new ⟨some fname, ats⟩ ⟨pk, some rt, none⟩
        = .ok (some ⟨((stripSuffix fname ('_' :: s)).getD fname) ++ "_factory".toList,
                     rt, s, (stripSuffix fname ('_' :: s)).getD fname⟩) := by
      simp [Analysis.Relation.new, Analysis.implicitKey, hr, hval]
    exact ⟨_, hnew, heq, hns, rfl⟩
  · intro fname rt pk ats hmem
    simp [Analysis.Relation.new, Analysis.implicitKey,
      (rsplitOnceUnderscore_eq_none_iff fname).mpr hmem]
  · intro fname rt k pk ats
    exact ⟨_, rfl, rfl⟩
  · intro fname rt pk ats
    rfl

/-- Witness for C4 (amended): the eager `Ident::new` abort on `address_1`
(digit suffix, explicit key present), explicit key on `hammer_id` (valid
suffix) and on `hammer` (no underscore), implicit suffix on `hammer_id`,
missing key on `hammer` (legacy variant) and on `hammer_id` (factory
variant). -/
theorem referenced_key_policy_witness :
    Analysis.Relation.new ⟨some "address_1".toList, []⟩
        ⟨false, some "Hammer".toList, some "id".toList⟩
      = .error (.IdentNewInvalid "1")
    ∧ (∃ rel, Analysis.Relation.new ⟨some "hammer_id".toList, []⟩
        ⟨false, some "Hammer".toList, some "weight".toList⟩
      = .ok (some rel) ∧ rel.referenced_key = "weight".toList)
    ∧ (∃ rel, Analysis.Relation.new ⟨some "hammer".toList, []⟩
        ⟨false, some "Hammer".toList, some "id".toList⟩
      = .ok (some rel) ∧ rel.referenced_key = "id".toList)
    ∧ (∃ rel, Analysis.Relation.new ⟨some "hammer_id".toList, []⟩
        ⟨false, some "Hammer".toList, none⟩
      = .ok (some rel) ∧ "hammer_id".toList = "hammer".toList ++ '_' :: "id".toList
      ∧ '_' ∉ "id".toList ∧ rel.referenced_key = "id".toList)
    ∧ Analysis.Relation.new ⟨some "hammer".toList, []⟩
        ⟨false, some "Hammer".toList, none⟩
      = .error (.MissingReferencedKey "hammer".toList)
    ∧ Factory.Analysis.Relation.new ⟨some "hammer_id".toList, []⟩
        ⟨false, some "Hammer".toList, none⟩
      = .error (.MissingReferencedKey "hammer_id".toList) :=
  ⟨referenced_key_policy.1 "address_1".toList "Hammer".toList false []
    (some "id".toList) "address".toList "1".toList rfl (by decide),
   referenced_key_policy.2.1 "hammer_id".toList "Hammer".toList
    "weight".toList false []
    (by
      intro p s h
      have h2 := congrArg Prod.snd (Option.some.inj h)
      dsimp only at h2
      rw [← h2]
      decide),
   referenced_key_policy.2.1 "hammer".toList "Hammer".toList "id".toList false []
    (by intro p s h; exact Option.noConfusion h),
   referenced_key_policy.2.2.1 "hammer_id".toList "Hammer".toList false []
    "hammer".toList "id".toList rfl (by decide),
   referenced_key_policy.2.2.2.1 "hammer".toList "Hammer".toList false []
    (by decide),
   referenced_key_policy.2.2.2.2.2 "hammer_id".toList "Hammer".toList false []⟩

/-- C7: for every successfully derived relation, in both analysis
variants, the base name equals the owner field name with the
`_<referenced_key>` suffix stripped when that suffix is present and the
owner field name unchanged otherwise, and the builder/factory field is the
base name followed by `_factory`; concretely, `hammer_id` with related type
`Hammer` and referenced key `id` derives base name `hammer` and builder
field `hammer_factory`, and `hammer` with explicit referenced key `id`
derives the same base name `hammer`. -/
theorem relation_base_name_derivation :
    (∀ (fname rt k : Ident) (pk : Bool) (ats : List Analysis.Annotation)
       (rel : Analysis.Relation),
      Analysis.Relation.new ⟨some fname, ats⟩ ⟨pk, some rt, some k⟩
          = .ok (some rel) →
        (('_' :: k) <:+ fname → rel.name ++ '_' :: k = fname)
        ∧ (¬ ('_' :: k) <:+ fname → rel.name = fname)
        ∧ rel.factory_field = rel.name ++ "_factory".toList)
    ∧ (∀ (fname rt k : Ident) (pk : Bool) (ats : List Analysis.Annotation)
       (rel : Analysis.Relation),
      Factory.Analysis.Relation.new ⟨some fname, ats⟩ ⟨pk, some rt, some k⟩
          = .ok (some rel) →
        (('_' :: k) <:+ fname → rel.name ++ '_' :: k = fname)
        ∧ (¬ ('_' :: k) <:+ fname → rel.name = fname)
        ∧ rel.factory_field = rel.name ++ "_factory".toList)
    ∧ (∃ rel, Analysis.Relation.new ⟨some "hammer_id".toList, []⟩
          ⟨false, some "Hammer".toList, none⟩ = .ok (some rel)
        ∧ rel.name = "hammer".toList
        ∧ rel.factory_field = "hammer_factory".toList
        ∧ rel.referenced_key = "id".toList)
    ∧ (∃ rel, Factory.Analysis.Relation.new ⟨some "hammer".toList, []⟩
          ⟨false, some "Hammer".toList, some "id".toList⟩ = .ok (some rel)
        ∧ rel.name = "hammer".toList) := by
  have hgen : ∀ (fname k : Ident) (nm : Ident),
      nm = (stripSuffix fname ('_' :: k)).getD fname →
      (('_' :: k) <:+ fname → nm ++ '_' :: k = fname)
      ∧ (¬ ('_' :: k) <:+ fname → nm = fname) := by
    intro fname k nm hnm
    constructor
    · intro hsuf
      obtain ⟨p, hp⟩ := hsuf
      have hstrip : stripSuffix fname ('_' :: k) = some p :=
        (stripSuffix_eq_some_iff fname ('_' :: k) p).mpr hp.symm
      rw [hnm, hstrip]
      exact hp
    · intro hnsuf
      have hstrip : stripSuffix fname ('_' :: k) = none := by
        apply stripSuffix_eq_none
        rintro ⟨p, hp⟩
        exact hnsuf ⟨p, hp.symm⟩
      rw [hnm, hstrip]
      rfl
  refine ⟨?_, ?_, ?_, ?_⟩
  · intro fname rt k pk ats rel h
    cases hik : Analysis.implicitKey fname with
    | error e =>
      rw [show Analysis.Relation.new ⟨some fname, ats⟩ ⟨pk, some rt, some k⟩
            = .error e by simp [Analysis.Relation.new, hik]] at h
      exact Except.noConfusion h
    | ok implicit =>
      rw [show Analysis.Relation.new ⟨some fname, ats⟩ ⟨pk, some rt, some k⟩
            = .ok (some ⟨((stripSuffix fname ('_' :: k)).getD fname)
                ++ "_factory".toList, rt, k,
                (stripSuffix fname ('_' :: k)).getD fname⟩)
            by simp [Analysis.Relation.new, hik]] at h
      have hrel := (Option.some.inj (Except.ok.inj h)).symm
      subst hrel
      exact ⟨(hgen fname k _ rfl).1, (hgen fname k _ rfl).2, rfl⟩
  · intro fname rt k pk ats rel h
    have hrel : rel = ⟨((stripSuffix fname ('_' :: k)).getD fname) ++ "_factory".toList,
                       rt, k, (stripSuffix fname ('_' :: k)).getD fname⟩ :=
      (Option.some.inj (Except.ok.inj h)).symm
    subst hrel
    exact ⟨(hgen fname k _ rfl).1, (hgen fname k _ rfl).2, rfl⟩
  · exact ⟨_, rfl, rfl, rfl, rfl⟩
  · exact ⟨_, rfl, rfl⟩

/-- Witness for C7 at the repository's own test input: `hammer_id` with
explicit referenced key `id` has base name whose `_id`-completion restores
the field name, with the builder field appending `_factory`. -/
theorem relation_base_name_derivation_witness :
    ((⟨"hammer_factory".toList, "Hammer".toList, "id".toList,
        "hammer".toList⟩ : Analysis.Relation).name ++ '_' :: "id".toList
      = "hammer_id".toList)
    ∧ (⟨"hammer_factory".toList, "Hammer".toList, "id".toList,
        "hammer".toList⟩ : Analysis.Relation).factory_field
      = (⟨"hammer_factory".toList, "Hammer".toList, "id".toList,
        "hammer".toList⟩ : Analysis.Relation).name ++ "_factory".toList := by
  have h := relation_base_name_derivation.1 "hammer_id".toList "Hammer".toList
    "id".toList false [] ⟨"hammer_factory".toList, "Hammer".toList, "id".toList,
    "hammer".toList⟩ rfl
  exact ⟨h.1 ⟨"hammer".toList, rfl⟩, h.2.2⟩

/-- C3: the generated `new()` leaves every field slot and every
relation-customization slot empty, and — when the record's `Persistable`
`create` returns `Ok` of its argument unchanged — `create` on the fresh
factory returns `Ok` of the all-defaults instance: every unset slot falls
back to its field type's default value at construction, and the store is
untouched. -/
theorem empty_factory_create_defaults :
    (∀ (s : Codegen.Schema),
      (∀ p ∈ (Codegen.newFactory s).fieldSlots, p.2 = none)
      ∧ (∀ p ∈ (Codegen.newFactory s).relSlots, p.2 = none))
    ∧ (∀ (σ ε : Type) (s : Codegen.Schema) (conn : σ),
      Codegen.create
          ((fun _ inst c => (c, Except.ok inst)) : Codegen.PersistFn σ ε)
          s (Codegen.newFactory s) conn
        = (conn, .ok (s.sfields.map (fun f => (f.name, f.dflt))))) := by
  have hslots : ∀ (s : Codegen.Schema),
      (∀ p ∈ (Codegen.newFactory s).fieldSlots, p.2 = none)
      ∧ (∀ p ∈ (Codegen.newFactory s).relSlots, p.2 = none) := by
    intro s
    constructor
    · intro p hp
      simp only [Codegen.newFactory, List.mem_map] at hp
      obtain ⟨f, _, hf⟩ := hp
      rw [← hf]
    · intro p hp
      simp only [Codegen.newFactory, List.mem_map] at hp
      obtain ⟨b, _, hb⟩ := hp
      rw [← hb]
  refine ⟨hslots, ?_⟩
  intro σ ε s conn
  cases s with
  | mk n fs rels =>
    have hres := Codegen.resolveRels_all_none
      ((fun _ inst c => (c, Except.ok inst)) : Codegen.PersistFn σ ε) rels
      ((Codegen.newFactory (Codegen.Schema.mk n fs rels)).relSlots)
      ((Codegen.newFactory (Codegen.Schema.mk n fs rels)).fieldSlots) conn
      ((hslots (Codegen.Schema.mk n fs rels)).2)
    rw [Codegen.create, hres]
    show (conn, Except.ok (Codegen.buildInstance fs
        (Codegen.newFactory (Codegen.Schema.mk n fs rels)).fieldSlots)) = _
    have hfield : (Codegen.newFactory (Codegen.Schema.mk n fs rels)).fieldSlots
        = fs.map (fun f => (f.name, none)) := rfl
    rw [hfield, Codegen.buildInstance_all_none]
    rfl

/-- C2: when a relation's recursive create fails, `create` returns that
error immediately and unchanged — for every remaining relation list, field
list and persistence oracle, so no later relation is resolved, the owner is
never constructed and its persistence `create` is never invoked; and an
error from the final persistence call is likewise returned unchanged. -/
theorem create_error_propagation :
    (∀ (σ ε : Type) (persist : Codegen.PersistFn σ ε) (n : Ident)
       (fs : List Codegen.SField) (owner base key : Ident)
       (related : Codegen.Schema) (rest : Codegen.RelList) (cbName : Ident)
       (prog : List Codegen.FactoryOp)
       (cbs : List (Ident × Option (List Codegen.FactoryOp)))
       (slots : List (Ident × Option Nat)) (conn conn' : σ) (e : ε),
      Codegen.create persist related
          (Codegen.applyOps (Codegen.newFactory related) prog) conn
        = (conn', .error e) →
      Codegen.create persist (.mk n fs (.cons owner base key related rest))
          ⟨slots, (cbName, some prog) :: cbs⟩ conn
        = (conn', .error e))
    ∧ (∀ (σ ε : Type) (persist : Codegen.PersistFn σ ε) (n : Ident)
       (fs : List Codegen.SField) (rels : Codegen.RelList)
       (cbs : List (Ident × Option (List Codegen.FactoryOp)))
       (slots slots' : List (Ident × Option Nat)) (conn conn₁ conn₂ : σ)
       (e : ε),
      Codegen.resolveRels persist rels cbs slots conn = (conn₁, .ok slots') →
      persist n (Codegen.buildInstance fs slots') conn₁ = (conn₂, .error e) →
      Codegen.create persist (.mk n fs rels) ⟨slots, cbs⟩ conn
        = (conn₂, .error e)) := by
  constructor
  · intro σ ε persist n fs owner base key related rest cbName prog cbs slots
      conn conn' e h
    simp only [Codegen.create, Codegen.resolveRels, h]
  · intro σ ε persist n fs rels cbs slots slots' conn conn₁ conn₂ e h1 h2
    simp only [Codegen.create, h1, h2]

/-- Witness for C2: against the integration-test schemas, a persistence
oracle failing on `Hammer` aborts the `Anvil` create with that error and
the store state as left by the failing call; one failing on `Anvil` itself
propagates the final persistence error unchanged. -/
theorem create_error_propagation_witness :
    Codegen.create (Examples.failOn "Hammer".toList) Examples.anvilS
        ⟨Examples.anvilSlots0, [("hammer".toList, some Examples.prog100)]⟩ 0
      = (0, .error 7)
    ∧ Codegen.create (Examples.failOn "Anvil".toList) Examples.anvilS
        ⟨Examples.anvilSlots0, [("hammer".toList, none)]⟩ 0
      = (0, .error 7) :=
  ⟨create_error_propagation.1 Nat Nat (Examples.failOn "Hammer".toList)
      "Anvil".toList Examples.anvilFields "hammer_id".toList "hammer".toList
      "id".toList Examples.hammerS .nil "hammer".toList Examples.prog100 []
      Examples.anvilSlots0 0 0 7 rfl,
   create_error_propagation.2 Nat Nat (Examples.failOn "Anvil".toList)
      "Anvil".toList Examples.anvilFields
      (.cons "hammer_id".toList "hammer".toList "id".toList Examples.hammerS .nil)
      [("hammer".toList, none)] Examples.anvilSlots0 Examples.anvilSlots0 0 0 0 7
      rfl rfl⟩

/-- C1 counterexample: with a relation whose referenced key is `weight`,
the generated `create` still copies the created related instance's fixed
`id` field (here `3`) into the owner's slot, not the value of the
referenced `weight` field (here `7`): the owner comes out with
`gauge_weight = 3`, where the claim requires `7`. -/
theorem create_copies_fixed_id_counterexample :
    Codegen.create Examples.okPersist Examples.scaleS
        (Codegen.applyOps (Codegen.newFactory Examples.scaleS)
          [.forRelation "gauge".toList Examples.gaugeProg]) 0
      = (0, .ok [("gauge_weight".toList, 3)])
    ∧ Codegen.create Examples.okPersist Examples.gaugeS
        (Codegen.applyOps (Codegen.newFactory Examples.gaugeS)
          Examples.gaugeProg) 0
      = (0, .ok [("id".toList, 3), ("weight".toList, 7)])
    ∧ Codegen.getField [("id".toList, 3), ("weight".toList, 7)] "weight".toList
      = 7
    ∧ (3 : Nat) ≠ 7 :=
  ⟨rfl, rfl, rfl, by decide⟩

/-- C1 (amended): when the first pending relation holds a callback,
`create` applies it to the related type's default factory, recursively
creates the result against the same connection, and on success continues —
remaining relations first, owner construction and persistence after — with
the owner field's slot overwritten by the created instance's fixed `id`
field, regardless of the relation's recorded referenced key; and the
assignment overwrites any previously set slot value. -/
theorem create_resolves_relation_with_id_field :
    (∀ (σ ε : Type) (persist : Codegen.PersistFn σ ε) (n : Ident)
       (fs : List Codegen.SField) (owner base key : Ident)
       (related : Codegen.Schema) (rest : Codegen.RelList) (cbName : Ident)
       (prog : List Codegen.FactoryOp)
       (cbs : List (Ident × Option (List Codegen.FactoryOp)))
       (slots : List (Ident × Option Nat)) (conn conn₁ : σ)
       (inst₁ : Codegen.Instance),
      Codegen.create persist related
          (Codegen.applyOps (Codegen.newFactory related) prog) conn
        = (conn₁, .ok inst₁) →
      Codegen.create persist (.mk n fs (.cons owner base key related rest))
          ⟨slots, (cbName, some prog) :: cbs⟩ conn
        = Codegen.create persist (.mk n fs rest)
            ⟨Codegen.setFieldSlot slots owner
              (Codegen.getField inst₁ Codegen.idIdent), cbs⟩ conn₁)
    ∧ (∀ (slots : List (Ident × Option Nat)) (f : Ident) (v : Nat)
       (w : Option Nat),
      Codegen.lookupSlot f slots = some w →
      Codegen.lookupSlot f (Codegen.setFieldSlot slots f v) = some (some v)) := by
  constructor
  · intro σ ε persist n fs owner base key related rest cbName prog cbs slots
      conn conn₁ inst₁ h
    simp only [Codegen.create, Codegen.resolveRels, h]
  · exact Codegen.lookupSlot_setFieldSlot_self

/-- Witness for C1 (amended) at the integration-test input: resolving the
hammer relation with a callback setting `id := 100` stores `100` into
`hammer_id` and yields the instance the repository's test expects; and an
explicitly set `hammer_id := 7` slot is overwritten. -/
theorem create_resolves_relation_with_id_field_witness :
    Codegen.create Examples.okPersist Examples.anvilS
        ⟨Examples.anvilSlots0, [("hammer".toList, some Examples.prog100)]⟩ 0
      = (0, .ok [("id".toList, 0), ("hammer_id".toList, 100),
                 ("hardness".toList, 0), ("weight".toList, 0)])
    ∧ Codegen.lookupSlot "hammer_id".toList
        (Codegen.setFieldSlot [("hammer_id".toList, some 7)]
          "hammer_id".toList 100)
      = some (some 100) :=
  ⟨Eq.trans
    (create_resolves_relation_with_id_field.1 Nat Nat Examples.okPersist
      "Anvil".toList Examples.anvilFields "hammer_id".toList "hammer".toList
      "id".toList Examples.hammerS .nil "hammer".toList Examples.prog100 []
      Examples.anvilSlots0 0 0 [("id".toList, 100), ("weight".toList, 0)] rfl)
    rfl,
   create_resolves_relation_with_id_field.2 [("hammer_id".toList, some 7)]
    "hammer_id".toList 100 (some 7) rfl⟩

end Fabrique
